import Mathlib

/-!
# Verification of the itphys Langevin / Brownian-motion simulator

Shallow embedding of the C sources:
  * `normal_rand.c`      — Box-Muller standard-normal generator;
  * `report1_haruki.c`   — CLI-configurable 2D Langevin integrator;
  * `brownian_motion.c`  — same integrator (the unnamed source file);
  * `gift/問題1/langevin.c` — hard-coded-parameter integrator with a seed argument.

Doubles are modelled as exact rationals; the transcendental library calls
(`sqrt`, `log`, `cos`) and the constant `M_PI` are abstracted into a record
`MathOps`, so every theorem below holds for an arbitrary interpretation of
those functions — the claims proved here are structural identities of the
code, not facts about real analysis.  The C library's pseudo-random source
`rand()` is modelled as an infinite stream `raws : ℕ → ℕ` of raw draws
together with a cursor counting how many draws have been consumed; `srand`
selects the stream.
-/

namespace Itphys

/-- Abstraction of the math-library calls used by the C sources. -/
structure MathOps where
  sqrt : ℚ → ℚ
  log : ℚ → ℚ
  cos : ℚ → ℚ
  pi : ℚ

/-- The glibc value of the `RAND_MAX` macro used by the sources. -/
def RAND_MAX : ℕ := 2147483647

/-- The mapping `(raw + 1.0) / (R + 2.0)` from `normal_rand.c` line 30/32,
taking a raw draw in `[0, R]` into the open unit interval. -/
def toUnit (R raw : ℕ) : ℚ := ((raw : ℚ) + 1) / ((R : ℚ) + 2)

/-- `normal_rand` from `normal_rand.c` (identical in all four sources): consumes
two raw draws at cursor `k`, returns the Box-Muller cosine output together with
the advanced cursor. -/
def normal_rand (ops : MathOps) (raws : ℕ → ℕ) (k : ℕ) : ℚ × ℕ :=
  let u1 := toUnit RAND_MAX (raws k)
  let u2 := toUnit RAND_MAX (raws (k + 1))
  (ops.sqrt (-2 * ops.log u1) * ops.cos (2 * ops.pi * u2), k + 2)

/-- Boltzmann constant, fixed at 1 in all sources (`const double kB = 1.0`). -/
def kB : ℚ := 1

/-- Simulation parameters of one run (`T m gamma dt` of `run_brownian_motion`). -/
structure Params where
  T : ℚ
  m : ℚ
  gamma : ℚ
  dt : ℚ
  deriving DecidableEq

/-- A particle state `(t, x, y, vx, vy)` as printed by one output row. -/
structure PState where
  t : ℚ
  x : ℚ
  y : ℚ
  vx : ℚ
  vy : ℚ
  deriving DecidableEq

/-- The per-step mutable variables of `langevin.c` (`x y vx vy`; its `t` is
recomputed from the loop index instead of being carried). -/
structure XV where
  x : ℚ
  y : ℚ
  vx : ℚ
  vy : ℚ
  deriving DecidableEq

/-- Projection of a full state onto the langevin.c per-step variables. -/
def PState.toXV (s : PState) : XV := ⟨s.x, s.y, s.vx, s.vy⟩

/-- The default initial condition `t = x = y = vx = vy = 0`. -/
def initState : PState := ⟨0, 0, 0, 0, 0⟩

/-- `coeff1 = gamma / m` (`report1_haruki.c` line 49, `brownian_motion.c`,
`langevin.c` line 32). -/
def coeff1 (p : Params) : ℚ := p.gamma / p.m

/-- `coeff2 = sqrt(2.0 * gamma * kB * T / m)` as precomputed by
`report1_haruki.c` line 50 and `brownian_motion.c`. -/
def coeff2 (ops : MathOps) (p : Params) : ℚ :=
  ops.sqrt (2 * p.gamma * kB * p.T / p.m)

/-- `coeff2 = sqrt(2.0 * gamma * kB * T / m) * sqrt(dt)` as precomputed by
`langevin.c` line 33 (the variant that folds `sqrt(dt)` into the constant). -/
def lvCoeff2 (ops : MathOps) (p : Params) : ℚ :=
  ops.sqrt (2 * p.gamma * kB * p.T / p.m) * ops.sqrt p.dt

/-- One loop iteration of `run_brownian_motion` (`report1_haruki.c` lines
57–64, identical in `brownian_motion.c`): velocity update, position update
with the freshly updated velocity, time accumulation. -/
def bmStep (ops : MathOps) (p : Params) (etaX etaY : ℚ) (s : PState) : PState :=
  let vx := s.vx - coeff1 p * s.vx * p.dt + coeff2 ops p * ops.sqrt p.dt * etaX
  let vy := s.vy - coeff1 p * s.vy * p.dt + coeff2 ops p * ops.sqrt p.dt * etaY
  ⟨s.t + p.dt, s.x + vx * p.dt, s.y + vy * p.dt, vx, vy⟩

/-- One loop iteration of `langevin.c` (lines 45–51): the same update written
with the precomputed noise coefficient `lvCoeff2`. -/
def lvStep (ops : MathOps) (p : Params) (etaX etaY : ℚ) (s : XV) : XV :=
  let vx := s.vx - coeff1 p * s.vx * p.dt + lvCoeff2 ops p * etaX
  let vy := s.vy - coeff1 p * s.vy * p.dt + lvCoeff2 ops p * etaY
  ⟨s.x + vx * p.dt, s.y + vy * p.dt, vx, vy⟩

/-- The loop of `run_brownian_motion`: starting from state `s` with random
cursor `k`, perform `n` steps, emitting the state after each step.  Each step
draws `eta_x` then `eta_y` via `normal_rand`. -/
def trajectoryAux (ops : MathOps) (p : Params) (raws : ℕ → ℕ) :
    PState → ℕ → ℕ → List PState
  | _, _, 0 => []
  | s, k, n + 1 =>
    let r1 := normal_rand ops raws k
    let r2 := normal_rand ops raws r1.2
    let s2 := bmStep ops p r1.1 r2.1 s
    s2 :: trajectoryAux ops p raws s2 r2.2 n

/-- The list of data rows printed by `run_brownian_motion`: the initial
condition followed by the `n` post-step states. -/
def trajectory (ops : MathOps) (p : Params) (raws : ℕ → ℕ) (n : ℕ) :
    List PState :=
  initState :: trajectoryAux ops p raws initState 0 n

/-- One line of the text output stream: the `# t x y vx vy` header or a data
row. -/
inductive OutLine where
  | header : OutLine
  | row : PState → OutLine
  deriving DecidableEq

/-- The full output stream of `run_brownian_motion`: one header line followed
by the data rows. -/
def bmOutput (ops : MathOps) (p : Params) (raws : ℕ → ℕ) (n : ℕ) :
    List OutLine :=
  OutLine.header :: (trajectory ops p raws n).map OutLine.row

/-- The brownian-motion mode of `main` in `report1_haruki.c` /
`brownian_motion.c`: the parsed parameter values are passed straight to the
integrator — the source performs no validation whatsoever.  A negative
`n_steps` makes the C `for` loop body run zero times, hence `Int.toNat`. -/
def bmMain (ops : MathOps) (raws : ℕ → ℕ) (T m gamma dt : ℚ)
    (nSteps : ℤ) : List OutLine :=
  bmOutput ops ⟨T, m, gamma, dt⟩ raws nSteps.toNat

/-! ## The hard-coded langevin.c variant -/

/-- The parameters hard-coded by `langevin.c` lines 29–30. -/
def lvParams : Params := ⟨1, 1, 1, 1 / 100⟩

/-- `n_steps = 1000` hard-coded by `langevin.c` line 31. -/
def lvSteps : ℕ := 1000

/-- The loop of `langevin.c` lines 44–52: `idx` is the loop counter `n`, and
the printed time of the row produced at counter value `idx` is
`(idx + 1) * dt`. -/
def lvAux (ops : MathOps) (p : Params) (raws : ℕ → ℕ) :
    XV → ℕ → ℕ → ℕ → List PState
  | _, _, _, 0 => []
  | s, k, idx, n + 1 =>
    let r1 := normal_rand ops raws k
    let r2 := normal_rand ops raws r1.2
    let s2 := lvStep ops p r1.1 r2.1 s
    ⟨((idx : ℚ) + 1) * p.dt, s2.x, s2.y, s2.vx, s2.vy⟩
      :: lvAux ops p raws s2 r2.2 (idx + 1) n

/-- The full output stream of `langevin.c`: header, the initial row printed at
line 42, then the loop rows. -/
def lvOutput (ops : MathOps) (raws : ℕ → ℕ) : List OutLine :=
  OutLine.header :: OutLine.row initState
    :: (lvAux ops lvParams raws ⟨0, 0, 0, 0⟩ 0 0 lvSteps).map OutLine.row

/-! ## Argument handling -/

/-- Accumulating digit scan of C `atoi`: consume decimal digits until the
first non-digit. -/
def atoiDigits : List Char → ℕ → ℕ
  | [], acc => acc
  | c :: cs, acc =>
    if c ≥ '0' ∧ c ≤ '9' then atoiDigits cs (acc * 10 + (c.toNat - '0'.toNat))
    else acc

/-- The whitespace characters skipped by C `atoi` (`isspace`). -/
def isSpaceChar (c : Char) : Bool :=
  c == ' ' || c == '\t' || c == '\n' || c == '\x0b' || c == '\x0c' || c == '\r'

/-- Model of C `atoi`: skip leading whitespace, optional sign, then digits;
a string with no leading digits parses to 0.  (Overflow, which is undefined
behaviour in C, is modelled as exact integer arithmetic.) -/
def atoi (s : String) : ℤ :=
  match s.toList.dropWhile isSpaceChar with
  | '-' :: cs => -(atoiDigits cs 0 : ℤ)
  | '+' :: cs => (atoiDigits cs 0 : ℤ)
  | cs => (atoiDigits cs 0 : ℤ)

/-- `int seed = (argc > 1) ? atoi(argv[1]) : 0;` — `langevin.c` line 37. -/
def lvSeed (arg : Option String) : ℤ :=
  match arg with
  | some a => atoi a
  | none => 0

/-- `if (seed != 0) srand((unsigned)seed);` — `langevin.c` line 38.  `randFn`
maps a seed to the raw-draw stream that `rand()` produces after `srand(seed)`;
`dflt` is the stream produced when `srand` is never called (the generator's
default seed). -/
def lvRaws (randFn : ℤ → ℕ → ℕ) (dflt : ℕ → ℕ) (arg : Option String) :
    ℕ → ℕ :=
  if lvSeed arg ≠ 0 then randFn (lvSeed arg) else dflt

/-- `main` of `langevin.c`, as a function of the (optional) first command-line
argument. -/
def lvMain (ops : MathOps) (randFn : ℤ → ℕ → ℕ) (dflt : ℕ → ℕ)
    (arg : Option String) : List OutLine :=
  lvOutput ops (lvRaws randFn dflt arg)

/-! ## normal_rand.c main -/

/-- The print loop of `main` in `normal_rand.c` lines 53–55: `n` samples,
threading the random cursor. -/
def nrSamples (ops : MathOps) (raws : ℕ → ℕ) : ℕ → ℕ → List ℚ
  | _, 0 => []
  | k, n + 1 =>
    let r := normal_rand ops raws k
    r.1 :: nrSamples ops raws r.2 n

/-- `main` of `normal_rand.c`: `atoi(argv[1])` is evaluated before anything
else, with no `argc` check — when `argv` has no element at index 1 the access
is past the array's terminating null pointer, i.e. undefined behaviour,
modelled as `none`. -/
def normalRandMain (ops : MathOps) (raws : ℕ → ℕ) (argv : List String) :
    Option (List ℚ) :=
  match argv[1]? with
  | none => none
  | some a => some (nrSamples ops raws 0 (atoi a).toNat)

/-! ## Concrete instances used by witnesses -/

/-- A concrete interpretation of the math library, for evaluating witnesses. -/
def ops0 : MathOps := ⟨fun q => q, fun q => q, fun q => q, 0⟩

/-- A concrete raw-draw stream. -/
def raws0 : ℕ → ℕ := fun _ => 0

/-- A concrete seed-to-stream map. -/
def randFn0 : ℤ → ℕ → ℕ := fun _ _ => 0

/-! ## Theorems -/

/-- C3: every call of `normal_rand` consumes exactly the two raw draws at
cursor positions `k` and `k + 1`, returns
`sqrt(-2 ln u1) * cos(2 pi u2)` for the mapped uniforms `u1, u2`, and its
only effect is advancing the cursor to `k + 2`. -/
theorem normal_rand_consumes_two_draws (ops : MathOps) (raws : ℕ → ℕ)
    (k : ℕ) :
    normal_rand ops raws k
      = (ops.sqrt (-2 * ops.log (toUnit RAND_MAX (raws k)))
           * ops.cos (2 * ops.pi * toUnit RAND_MAX (raws (k + 1))),
         k + 2) := rfl

/-- C4: for every raw draw in `[0, RAND_MAX]`, the mapped uniform
`(raw + 1) / (RAND_MAX + 2)` lies strictly inside `(0, 1)`, so the argument
`u1` fed to the logarithm in Box-Muller is strictly positive. -/
theorem toUnit_mem_open_unit_interval (raw : ℕ) (h : raw ≤ RAND_MAX) :
    0 < toUnit RAND_MAX raw ∧ toUnit RAND_MAX raw < 1 := by
  constructor
  · unfold toUnit
    positivity
  · unfold toUnit
    rw [div_lt_one (by positivity)]
    have hc : (raw : ℚ) ≤ (RAND_MAX : ℚ) := by exact_mod_cast h
    linarith

theorem toUnit_mem_open_unit_interval_witness :
    (0 : ℕ) ≤ RAND_MAX
      ∧ 0 < toUnit RAND_MAX 0 ∧ toUnit RAND_MAX 0 < 1 :=
  ⟨by decide, toUnit_mem_open_unit_interval 0 (by decide)⟩

/-- C8: the step of `langevin.c` (noise coefficient precomputed as
`sqrt(2 gamma kB T / m) * sqrt(dt)`, multiplied by `eta` each step) and the
step of `report1_haruki.c` / `brownian_motion.c` (coefficient precomputed as
`sqrt(2 gamma kB T / m)`, multiplied by `sqrt(dt) * eta` each step) produce
identical new `(x, y, vx, vy)` states, for every state, parameters and pair
of normal variates. -/
theorem langevin_step_eq_brownian_step (ops : MathOps) (p : Params)
    (etaX etaY : ℚ) (s : PState) :
    lvStep ops p etaX etaY s.toXV = (bmStep ops p etaX etaY s).toXV := rfl

/-- C1: one integrator step updates each velocity component to
`v - (gamma/m) * v * dt + sqrt(2 gamma kB T / m) * sqrt(dt) * eta` (with the
respective fresh variate for each dimension), and updates each position
component with the post-update velocity: `r + v_new * dt`. -/
theorem step_update_formula (ops : MathOps) (p : Params) (etaX etaY : ℚ)
    (s : PState) (_hm : 0 < p.m) :
    (bmStep ops p etaX etaY s).vx
        = s.vx - p.gamma / p.m * s.vx * p.dt
            + ops.sqrt (2 * p.gamma * kB * p.T / p.m) * ops.sqrt p.dt * etaX
      ∧ (bmStep ops p etaX etaY s).vy
        = s.vy - p.gamma / p.m * s.vy * p.dt
            + ops.sqrt (2 * p.gamma * kB * p.T / p.m) * ops.sqrt p.dt * etaY
      ∧ (bmStep ops p etaX etaY s).x
          = s.x + (bmStep ops p etaX etaY s).vx * p.dt
      ∧ (bmStep ops p etaX etaY s).y
          = s.y + (bmStep ops p etaX etaY s).vy * p.dt :=
  ⟨rfl, rfl, rfl, rfl⟩

theorem step_update_formula_witness :
    0 < lvParams.m
      ∧ ((bmStep ops0 lvParams 0 0 initState).vx
            = initState.vx - lvParams.gamma / lvParams.m * initState.vx * lvParams.dt
                + ops0.sqrt (2 * lvParams.gamma * kB * lvParams.T / lvParams.m)
                    * ops0.sqrt lvParams.dt * 0
          ∧ (bmStep ops0 lvParams 0 0 initState).vy
            = initState.vy - lvParams.gamma / lvParams.m * initState.vy * lvParams.dt
                + ops0.sqrt (2 * lvParams.gamma * kB * lvParams.T / lvParams.m)
                    * ops0.sqrt lvParams.dt * 0
          ∧ (bmStep ops0 lvParams 0 0 initState).x
              = initState.x + (bmStep ops0 lvParams 0 0 initState).vx * lvParams.dt
          ∧ (bmStep ops0 lvParams 0 0 initState).y
              = initState.y + (bmStep ops0 lvParams 0 0 initState).vy * lvParams.dt) :=
  ⟨by decide, step_update_formula ops0 lvParams 0 0 initState (by decide)⟩

theorem trajectoryAux_length (ops : MathOps) (p : Params) (raws : ℕ → ℕ) :
    ∀ (n : ℕ) (s : PState) (k : ℕ),
      (trajectoryAux ops p raws s k n).length = n := by
  intro n
  induction n with
  | zero => intro s k; rfl
  | succ n ih =>
    intro s k
    simp only [trajectoryAux, List.length_cons]
    rw [ih]

theorem lvAux_length (ops : MathOps) (p : Params) (raws : ℕ → ℕ) :
    ∀ (n : ℕ) (s : XV) (k idx : ℕ),
      (lvAux ops p raws s k idx n).length = n := by
  intro n
  induction n with
  | zero => intro s k idx; rfl
  | succ n ih =>
    intro s k idx
    simp only [lvAux, List.length_cons]
    rw [ih]

/-- C5: for every requested step count `n`, a run emits exactly one header
line followed by exactly `n + 1` data rows, the first of which is the default
initial condition `(0,0,0,0,0)` exactly; the same holds for the hard-coded
`langevin.c` run with its fixed `n = 1000`. -/
theorem output_shape (ops : MathOps) (p : Params) (raws : ℕ → ℕ) (n : ℕ) :
    (bmOutput ops p raws n).length = 1 + (n + 1)
      ∧ (bmOutput ops p raws n)[0]? = some OutLine.header
      ∧ (bmOutput ops p raws n)[1]? = some (OutLine.row ⟨0, 0, 0, 0, 0⟩)
      ∧ (lvOutput ops raws).length = 1 + (lvSteps + 1)
      ∧ (lvOutput ops raws)[0]? = some OutLine.header
      ∧ (lvOutput ops raws)[1]? = some (OutLine.row ⟨0, 0, 0, 0, 0⟩) := by
  refine ⟨?_, ?_, ?_, ?_, ?_, ?_⟩
  · simp only [bmOutput, trajectory, List.length_cons, List.length_map]
    rw [trajectoryAux_length]
    omega
  · simp [bmOutput]
  · simp [bmOutput, trajectory, initState]
  · simp only [lvOutput, List.length_cons, List.length_map]
    rw [lvAux_length]
    omega
  · simp [lvOutput]
  · simp [lvOutput, initState]

theorem trajectoryAux_t_get (ops : MathOps) (p : Params) (raws : ℕ → ℕ) :
    ∀ (n : ℕ) (s : PState) (k i : ℕ), i < n →
      ((trajectoryAux ops p raws s k n)[i]?).map PState.t
        = some (s.t + ((i : ℚ) + 1) * p.dt) := by
  intro n
  induction n with
  | zero => intro s k i hi; omega
  | succ n ih =>
    intro s k i hi
    match i with
    | 0 =>
      simp only [trajectoryAux, List.getElem?_cons_zero, Option.map_some']
      have ht : (bmStep ops p (normal_rand ops raws k).1
          (normal_rand ops raws (normal_rand ops raws k).2).1 s).t
            = s.t + p.dt := rfl
      rw [ht]
      norm_num
    | j + 1 =>
      simp only [trajectoryAux, List.getElem?_cons_succ]
      rw [ih _ _ _ (by omega)]
      have ht : (bmStep ops p (normal_rand ops raws k).1
          (normal_rand ops raws (normal_rand ops raws k).2).1 s).t
            = s.t + p.dt := rfl
      rw [ht]
      push_cast
      ring_nf

theorem trajectory_t_get (ops : MathOps) (p : Params) (raws : ℕ → ℕ)
    (n i : ℕ) (hi : i ≤ n) :
    ((trajectory ops p raws n)[i]?).map PState.t = some ((i : ℚ) * p.dt) := by
  match i with
  | 0 =>
    simp [trajectory, initState]
  | j + 1 =>
    simp only [trajectory, List.getElem?_cons_succ]
    rw [trajectoryAux_t_get ops p raws n initState 0 j (by omega)]
    have h0 : initState.t = 0 := rfl
    rw [h0]
    push_cast
    ring_nf

/-- C7: in the emitted trajectory, the time component of row `i` equals
`i * dt` for every `i ≤ n` (the accumulated `t += dt` agrees with `i * dt`
exactly in exact arithmetic), so in particular the times advance by exactly
`dt` per row and are monotonically non-decreasing whenever `dt ≥ 0`. -/
theorem trajectory_time_law (ops : MathOps) (p : Params) (raws : ℕ → ℕ)
    (n i : ℕ) (hi : i ≤ n) :
    ((trajectory ops p raws n)[i]?).map PState.t = some ((i : ℚ) * p.dt)
      ∧ (i < n →
          ((trajectory ops p raws n)[i + 1]?).map PState.t
            = some ((i : ℚ) * p.dt + p.dt))
      ∧ (0 ≤ p.dt → ∀ j, i ≤ j → j ≤ n →
          ∀ ti tj,
            ((trajectory ops p raws n)[i]?).map PState.t = some ti →
              ((trajectory ops p raws n)[j]?).map PState.t = some tj →
                ti ≤ tj) := by
  refine ⟨trajectory_t_get ops p raws n i hi, ?_, ?_⟩
  · intro hlt
    rw [trajectory_t_get ops p raws n (i + 1) (by omega)]
    push_cast
    ring_nf
  · intro hdt j hij hjn ti tj hti htj
    rw [trajectory_t_get ops p raws n i hi] at hti
    rw [trajectory_t_get ops p raws n j hjn] at htj
    have h1 : ti = (i : ℚ) * p.dt := by exact_mod_cast (Option.some.injEq _ _).mp hti.symm
    have h2 : tj = (j : ℚ) * p.dt := by exact_mod_cast (Option.some.injEq _ _).mp htj.symm
    rw [h1, h2]
    have hc : (i : ℚ) ≤ (j : ℚ) := by exact_mod_cast hij
    exact mul_le_mul_of_nonneg_right hc hdt

theorem trajectory_time_law_witness :
    ((trajectory ops0 lvParams raws0 1)[0]?).map PState.t
        = some ((0 : ℚ) * lvParams.dt)
      ∧ ((0 : ℕ) < 1 →
          ((trajectory ops0 lvParams raws0 1)[0 + 1]?).map PState.t
            = some ((0 : ℚ) * lvParams.dt + lvParams.dt))
      ∧ (0 ≤ lvParams.dt → ∀ j, 0 ≤ j → j ≤ 1 →
          ∀ ti tj,
            ((trajectory ops0 lvParams raws0 1)[0]?).map PState.t = some ti →
              ((trajectory ops0 lvParams raws0 1)[j]?).map PState.t = some tj →
                ti ≤ tj) :=
  trajectory_time_law ops0 lvParams raws0 1 0 (by decide)

/-- C2 counterexample: the claim says an invocation with non-positive `m` is
rejected before any output is emitted (no header, no data row).  At the
concrete invocation `T = 1, m = 0, gamma = 1, dt = 1, n_steps = 1` the program
nevertheless emits a header line followed by two data rows — `main` performs
no parameter validation at all. -/
theorem no_validation_counterexample :
    (bmMain ops0 raws0 1 0 1 1 1).length = 3
      ∧ (bmMain ops0 raws0 1 0 1 1 1)[0]? = some OutLine.header
      ∧ bmMain ops0 raws0 1 0 1 1 1 ≠ [] := by
  refine ⟨?_, ?_, ?_⟩
  · show (bmOutput ops0 ⟨1, 0, 1, 1⟩ raws0 (1 : ℤ).toNat).length = 3
    simp only [bmOutput, trajectory, List.length_cons, List.length_map]
    rw [trajectoryAux_length]
    rfl
  · simp [bmMain, bmOutput]
  · simp [bmMain, bmOutput]

/-- C2 (amended): no invocation is rejected.  For every parameter values —
non-positive `m`, `gamma`, `dt` or `nSteps` included — the run emits the
header plus `nSteps.toNat + 1` data rows; in particular an invocation with
`T = 0` (and otherwise valid parameters) completes and emits the same rows
without crashing. -/
theorem run_never_rejected (ops : MathOps) (raws : ℕ → ℕ)
    (T m gamma dt : ℚ) (nSteps : ℤ) :
    (bmMain ops raws T m gamma dt nSteps).length = nSteps.toNat + 2
      ∧ (bmMain ops raws T m gamma dt nSteps)[0]? = some OutLine.header
      ∧ (bmMain ops raws T m gamma dt nSteps)[1]?
          = some (OutLine.row ⟨0, 0, 0, 0, 0⟩) := by
  refine ⟨?_, ?_, ?_⟩
  · show (bmOutput ops ⟨T, m, gamma, dt⟩ raws nSteps.toNat).length
        = nSteps.toNat + 2
    simp only [bmOutput, trajectory, List.length_cons, List.length_map]
    rw [trajectoryAux_length]
  · simp [bmMain, bmOutput]
  · simp [bmMain, bmOutput, trajectory, initState]

/-- C6: two runs with the same seed argument are identical — both for the
seed-accepting `langevin.c` entry point (same command-line argument, same
library interpretation, same seed-to-stream map) and for the parameterized
integrator fed the stream selected by an equal seed with equal parameters and
step count.  (When no seed is supplied nothing is claimed.) -/
theorem seeded_run_deterministic (ops : MathOps) (randFn : ℤ → ℕ → ℕ)
    (dflt : ℕ → ℕ) (a1 a2 : Option String) (seed1 seed2 : ℤ)
    (p1 p2 : Params) (n1 n2 : ℕ)
    (ha : a1 = a2) (hs : seed1 = seed2) (hp : p1 = p2) (hn : n1 = n2) :
    lvMain ops randFn dflt a1 = lvMain ops randFn dflt a2
      ∧ bmOutput ops p1 (randFn seed1) n1 = bmOutput ops p2 (randFn seed2) n2 := by
  subst ha hs hp hn
  exact ⟨rfl, rfl⟩

theorem seeded_run_deterministic_witness :
    lvMain ops0 randFn0 raws0 (some ("1")) = lvMain ops0 randFn0 raws0 (some ("1"))
      ∧ bmOutput ops0 lvParams (randFn0 1) 1 = bmOutput ops0 lvParams (randFn0 1) 1 :=
  seeded_run_deterministic ops0 randFn0 raws0 (some ("1")) (some ("1")) 1 1
    lvParams lvParams 1 1 rfl rfl rfl rfl

/-- C9: `main` of `normal_rand.c` dereferences `argv[1]` unconditionally:
with fewer than two `argv` entries the run hits the out-of-bounds access
(modelled as `none`) before producing any output, while with at least two
entries the run is well-defined and produces an output list. -/
theorem normal_rand_main_argc (ops : MathOps) (raws : ℕ → ℕ)
    (argv : List String) :
    (argv.length ≤ 1 → normalRandMain ops raws argv = none)
      ∧ (2 ≤ argv.length →
          ∃ res, normalRandMain ops raws argv = some res) := by
  constructor
  · intro h
    have h1 : argv[1]? = none := List.getElem?_eq_none h
    simp [normalRandMain, h1]
  · intro h
    have h1 : 1 < argv.length := by omega
    refine ⟨nrSamples ops raws 0 (atoi argv[1]).toNat, ?_⟩
    simp [normalRandMain, List.getElem?_eq_getElem h1]

theorem normal_rand_main_argc_witness :
    normalRandMain ops0 raws0 (["prog"]) = none :=
  (normal_rand_main_argc ops0 raws0 (["prog"])).1 (by decide)

/-- C10: in `langevin.c`, a first argument whose `atoi` parse is 0 (the
literal "0" or any non-numeric string) leaves `srand` uncalled, so the run is
identical to the run with no argument at all: the supplied 0 never influences
the output. -/
theorem zero_seed_same_as_no_seed (ops : MathOps) (randFn : ℤ → ℕ → ℕ)
    (dflt : ℕ → ℕ) (a : String) (h : atoi a = 0) :
    lvMain ops randFn dflt (some a) = lvMain ops randFn dflt none := by
  unfold lvMain lvRaws lvSeed
  simp [h]

theorem zero_seed_same_as_no_seed_witness :
    atoi ("0") = 0
      ∧ lvMain ops0 randFn0 raws0 (some ("0"))
          = lvMain ops0 randFn0 raws0 none :=
  ⟨by decide, zero_seed_same_as_no_seed ops0 randFn0 raws0 ("0") (by decide)⟩

end Itphys
